import Mathlib

/-!
Verification of the metube-extended download orchestration core.

This development shallowly embeds the job-store and lifecycle logic of the
four download providers (`app/ytdl.py`, `app/proxy_downloads.py`,
`app/seedr_manager.py`, `app/gallerydl_manager.py`) and proves or refutes
the frozen claims about the partition invariant, size-limit enforcement,
history retention and persistence, cancellation, rename and output-path
freshness.

Partitions (`pending`, `queue`/active, `done`) are Python `OrderedDict`s
keyed by the storage key; they are embedded as key lists (insertion order)
or association lists where record payloads matter.
-/

namespace MeTube

/-! ## Ordered-dict primitives

`OrderedDict` assignment of a fresh key appends it; assignment of an
existing key keeps its position.  At the key level this is `odPut`.
`del d[k]` / `pop` is `odErase`; `popitem(last=False)` removes the head.
-/

/-- Key-level `OrderedDict` insertion: a fresh key is appended, an existing
key keeps its position. -/
def odPut (l : List String) (k : String) : List String :=
  if k ∈ l then l else l ++ [k]

/-- Key-level `OrderedDict` deletion. -/
def odErase (l : List String) (k : String) : List String :=
  l.erase k

/-- `while len(d) > cap: d.popitem(last=False)` — the oldest-first eviction
loop shared by `PersistentQueue.truncate` and `_enforce_history_limit`
(entries are keys or key/record pairs depending on the embedding level). -/
def evictOldest {α : Type} (cap : Nat) : List α → List α
  | [] => []
  | x :: xs => if xs.length + 1 ≤ cap then x :: xs else evictOldest cap xs

theorem mem_odPut {l : List String} {k a : String} (h : a ∈ odPut l k) :
    a ∈ l ∨ a = k := by
  unfold odPut at h
  by_cases hk : k ∈ l
  · simp [hk] at h; exact Or.inl h
  · simp [hk] at h; exact h

theorem mem_odPut_self (l : List String) (k : String) : k ∈ odPut l k := by
  unfold odPut
  by_cases hk : k ∈ l <;> simp [hk]

theorem nodup_odPut {l : List String} (k : String) (h : l.Nodup) :
    (odPut l k).Nodup := by
  unfold odPut
  by_cases hk : k ∈ l
  · simp only [hk, if_true]; exact h
  · simp only [hk, if_false]
    refine List.Nodup.append h (List.nodup_singleton k) ?_
    intro a ha hak
    simp only [List.mem_singleton] at hak
    exact hk (hak ▸ ha)

theorem mem_of_mem_odErase {l : List String} {k a : String}
    (h : a ∈ odErase l k) : a ∈ l :=
  List.mem_of_mem_erase h

theorem not_mem_odErase_self {l : List String} (h : l.Nodup) (k : String) :
    k ∉ odErase l k :=
  h.not_mem_erase

theorem nodup_odErase {l : List String} (k : String) (h : l.Nodup) :
    (odErase l k).Nodup :=
  h.erase k

theorem evictOldest_subset {α : Type} {cap : Nat} {l : List α} {a : α}
    (h : a ∈ evictOldest cap l) : a ∈ l := by
  induction l with
  | nil => simp [evictOldest] at h
  | cons x xs ih =>
    unfold evictOldest at h
    by_cases hc : xs.length + 1 ≤ cap
    · simpa [hc] using h
    · simp only [hc, if_false] at h
      exact List.mem_cons_of_mem x (ih h)

theorem evictOldest_eq_drop {α : Type} (cap : Nat) (l : List α) :
    evictOldest cap l = l.drop (l.length - cap) := by
  induction l with
  | nil => simp [evictOldest]
  | cons x xs ih =>
    unfold evictOldest
    by_cases hc : xs.length + 1 ≤ cap
    · have h0 : xs.length + 1 - cap = 0 := by omega
      simp [hc, h0]
    · have hge : xs.length + 1 - cap = (xs.length - cap) + 1 := by omega
      simp only [hc, if_false, List.length_cons, hge, List.drop_succ_cons]
      exact ih

theorem nodup_evictOldest {α : Type} {cap : Nat} {l : List α} (h : l.Nodup) :
    (evictOldest cap l).Nodup := by
  rw [evictOldest_eq_drop]
  exact (List.drop_sublist _ _).nodup h

/-! ## C1 — the ytdl `DownloadQueue` partition state machine

`DownloadQueue` holds three `PersistentQueue`s (`pending`, `queue`, `done`),
all keyed by the download URL.  The embedded operations mirror:
`__add_entry`/`__add_download` (guarded only by `queue.exists`),
`start_pending`, `cancel`, `_post_download_cleanup` (finalization, with
`truncate` applied when `max_history_items >= 0`), `clear` and `rename`.
-/

structure QState where
  pending : List String
  queue : List String
  done : List String
  deriving DecidableEq, Repr

def QState.empty : QState := ⟨[], [], []⟩

/-- `PersistentQueue.truncate(max_items)`: `None` is a no-op, a
non-positive cap clears, otherwise evict oldest while over the cap. -/
def truncateQueue {α : Type} (maxItems : Option Int) (l : List α) : List α :=
  match maxItems with
  | none => l
  | some m => if m ≤ 0 then [] else evictOldest m.toNat l

theorem truncateQueue_subset {α : Type} {maxItems : Option Int} {l : List α}
    {a : α} (h : a ∈ truncateQueue maxItems l) : a ∈ l := by
  unfold truncateQueue at h
  match maxItems with
  | none => exact h
  | some m =>
    by_cases hm : m ≤ 0
    · simp [hm] at h
    · simp only [hm, if_false] at h
      exact evictOldest_subset h

theorem nodup_truncateQueue {α : Type} {maxItems : Option Int} {l : List α}
    (h : l.Nodup) : (truncateQueue maxItems l).Nodup := by
  unfold truncateQueue
  match maxItems with
  | none => exact h
  | some m =>
    by_cases hm : m ≤ 0
    · simp [hm]
    · simp only [hm, if_false]
      exact nodup_evictOldest h

/-- The operations of `DownloadQueue` that touch the partitions. -/
inductive QOp where
  /-- `__add_entry` + `__add_download`: skipped when the key is already in
  the active queue; otherwise the record is inserted into `queue`
  (auto-start) or `pending`. -/
  | addEntry (k : String) (autoStart : Bool)
  /-- `start_pending(id)`: move an existing pending record to `queue`. -/
  | startPending (k : String)
  /-- `cancel(id)`; `started` tells whether the worker process exists,
  mirroring `self.queue.get(id).started()`. -/
  | cancelOp (k : String) (started : Bool)
  /-- `_post_download_cleanup`: finalize a record that is still in `queue`;
  canceled records are dropped, others move to `done` (then truncated when
  the cap is non-negative). -/
  | finalize (k : String) (canceled : Bool)
  /-- `clear(id)`: remove from `done`; `removeOk = false` is the branch
  where deleting the backing file raised and the record is kept. -/
  | clearOp (k : String) (removeOk : Bool)
  /-- `rename(id, ...)`: mutates only the record payload, never moves a
  key between partitions. -/
  | renameOp (k : String)
  deriving DecidableEq, Repr

def qstep (cap : Int) (s : QState) : QOp → QState
  | .addEntry k autoStart =>
      if k ∈ s.queue then s
      else if autoStart then { s with queue := odPut s.queue k }
      else { s with pending := odPut s.pending k }
  | .startPending k =>
      if k ∈ s.pending then
        { s with queue := odPut s.queue k, pending := odErase s.pending k }
      else s
  | .cancelOp k started =>
      if k ∈ s.pending then { s with pending := odErase s.pending k }
      else if k ∈ s.queue then
        if started then s else { s with queue := odErase s.queue k }
      else s
  | .finalize k canceled =>
      if k ∈ s.queue then
        if canceled then { s with queue := odErase s.queue k }
        else
          { s with
            queue := odErase s.queue k
            done :=
              if cap ≥ 0 then truncateQueue (some cap) (odPut s.done k)
              else odPut s.done k }
      else s
  | .clearOp k removeOk =>
      if k ∈ s.done then
        if removeOk then { s with done := odErase s.done k } else s
      else s
  | .renameOp _ => s

def qrun (cap : Int) (s : QState) (ops : List QOp) : QState :=
  ops.foldl (qstep cap) s

/-- The three partitions are pairwise disjoint on keys. -/
def Disjoint3 (s : QState) : Prop :=
  (∀ k ∈ s.pending, k ∉ s.queue ∧ k ∉ s.done) ∧ ∀ k ∈ s.queue, k ∉ s.done

instance (s : QState) : Decidable (Disjoint3 s) := by
  unfold Disjoint3; infer_instance

/-- Well-formed state: set-like partitions (dict keys are unique) that are
pairwise disjoint. -/
def QWF (s : QState) : Prop :=
  s.pending.Nodup ∧ s.queue.Nodup ∧ s.done.Nodup ∧ Disjoint3 s

instance (s : QState) : Decidable (QWF s) := by
  unfold QWF; infer_instance

/-- `add` is the only operation that can inject a key already stored in
another partition: this predicate records, along a run, that every
`addEntry` key is absent from `pending` and `done` when it executes (the
code itself only guards against `queue`). -/
def safeAdds (cap : Int) : QState → List QOp → Bool
  | _, [] => true
  | s, op :: rest =>
      (match op with
       | .addEntry k _ => !(decide (k ∈ s.pending)) && !(decide (k ∈ s.done))
       | _ => true) &&
      safeAdds cap (qstep cap s op) rest

theorem qwf_qstep (cap : Int) (s : QState) (op : QOp)
    (h : QWF s)
    (hfresh : ∀ k b, op = .addEntry k b → k ∉ s.pending ∧ k ∉ s.done) :
    QWF (qstep cap s op) := by
  obtain ⟨hnp, hnq, hnd, hpd, hqd⟩ := h
  cases op with
  | addEntry k autoStart =>
    obtain ⟨hkp, hkd⟩ := hfresh k autoStart rfl
    unfold qstep
    by_cases hq : k ∈ s.queue
    · simp only [hq, if_true]
      exact ⟨hnp, hnq, hnd, hpd, hqd⟩
    · cases autoStart with
      | true =>
        simp only [hq, if_false, if_true]
        refine ⟨hnp, nodup_odPut k hnq, hnd, fun a ha => ?_, fun a ha => ?_⟩
        · rcases hpd a ha with ⟨haq, had⟩
          refine ⟨fun hmem => ?_, had⟩
          rcases mem_odPut hmem with hm | hm
          · exact haq hm
          · exact hkp (hm ▸ ha)
        · rcases mem_odPut ha with hm | hm
          · exact hqd a hm
          · exact hm ▸ hkd
      | false =>
        simp only [hq, if_false, Bool.false_eq_true]
        refine ⟨nodup_odPut k hnp, hnq, hnd, fun a ha => ?_, hqd⟩
        rcases mem_odPut ha with hm | hm
        · exact hpd a hm
        · subst hm; exact ⟨hq, hkd⟩
  | startPending k =>
    unfold qstep
    by_cases hp : k ∈ s.pending
    · simp only [hp, if_true]
      refine ⟨nodup_odErase k hnp, nodup_odPut k hnq, hnd,
        fun a ha => ?_, fun a ha => ?_⟩
      · have ha' := mem_of_mem_odErase ha
        rcases hpd a ha' with ⟨haq, had⟩
        refine ⟨fun hmem => ?_, had⟩
        rcases mem_odPut hmem with hm | hm
        · exact haq hm
        · subst hm; exact not_mem_odErase_self hnp a ha
      · rcases mem_odPut ha with hm | hm
        · exact hqd a hm
        · subst hm; exact (hpd a hp).2
    · simp only [hp, if_false]
      exact ⟨hnp, hnq, hnd, hpd, hqd⟩
  | cancelOp k started =>
    unfold qstep
    by_cases hp : k ∈ s.pending
    · simp only [hp, if_true]
      refine ⟨nodup_odErase k hnp, hnq, hnd, fun a ha => ?_, hqd⟩
      exact hpd a (mem_of_mem_odErase ha)
    · by_cases hq : k ∈ s.queue
      · cases started with
        | true =>
          simp only [hp, hq, if_false, if_true]
          exact ⟨hnp, hnq, hnd, hpd, hqd⟩
        | false =>
          simp only [hp, hq, if_false, if_true, Bool.false_eq_true]
          refine ⟨hnp, nodup_odErase k hnq, hnd, fun a ha => ?_,
            fun a ha => ?_⟩
          · rcases hpd a ha with ⟨haq, had⟩
            exact ⟨fun hmem => haq (mem_of_mem_odErase hmem), had⟩
          · exact hqd a (mem_of_mem_odErase ha)
      · simp only [hp, hq, if_false]
        exact ⟨hnp, hnq, hnd, hpd, hqd⟩
  | finalize k canceled =>
    unfold qstep
    by_cases hq : k ∈ s.queue
    · have hkp : k ∉ s.pending := fun hk => (hpd k hk).1 hq
      have hkd : k ∉ s.done := hqd k hq
      cases canceled with
      | true =>
        simp only [hq, if_true]
        refine ⟨hnp, nodup_odErase k hnq, hnd, fun a ha => ?_,
          fun a ha => ?_⟩
        · rcases hpd a ha with ⟨haq, had⟩
          exact ⟨fun hmem => haq (mem_of_mem_odErase hmem), had⟩
        · exact hqd a (mem_of_mem_odErase ha)
      | false =>
        have hdone :
            ∀ a, a ∈ (if cap ≥ 0 then truncateQueue (some cap) (odPut s.done k)
              else odPut s.done k) → a ∈ s.done ∨ a = k := by
          intro a ha
          by_cases hc : cap ≥ 0
          · simp only [hc, if_true] at ha
            exact mem_odPut (truncateQueue_subset ha)
          · simp only [hc, if_false] at ha
            exact mem_odPut ha
        have hdnodup :
            (if cap ≥ 0 then truncateQueue (some cap) (odPut s.done k)
              else odPut s.done k).Nodup := by
          by_cases hc : cap ≥ 0
          · simp only [hc, if_true]
            exact nodup_truncateQueue (nodup_odPut k hnd)
          · simp only [hc, if_false]
            exact nodup_odPut k hnd
        simp only [hq, if_true, Bool.false_eq_true]
        refine ⟨hnp, nodup_odErase k hnq, hdnodup, fun a ha => ?_,
          fun a ha => ?_⟩
        · rcases hpd a ha with ⟨haq, had⟩
          refine ⟨fun hmem => haq (mem_of_mem_odErase hmem), fun hmem => ?_⟩
          rcases hdone a hmem with hm | hm
          · exact had hm
          · exact hkp (hm ▸ ha)
        · have haq := mem_of_mem_odErase ha
          intro hmem
          rcases hdone a hmem with hm | hm
          · exact hqd a haq hm
          · subst hm; exact not_mem_odErase_self hnq a ha
    · simp only [hq, if_false]
      exact ⟨hnp, hnq, hnd, hpd, hqd⟩
  | clearOp k removeOk =>
    unfold qstep
    by_cases hd : k ∈ s.done
    · cases removeOk with
      | true =>
        simp only [hd, if_true]
        refine ⟨hnp, hnq, nodup_odErase k hnd, fun a ha => ?_,
          fun a ha => ?_⟩
        · rcases hpd a ha with ⟨haq, had⟩
          exact ⟨haq, fun hmem => had (mem_of_mem_odErase hmem)⟩
        · exact fun hmem => hqd a ha (mem_of_mem_odErase hmem)
      | false =>
        simp only [hd, if_true, Bool.false_eq_true, if_false]
        exact ⟨hnp, hnq, hnd, hpd, hqd⟩
    · simp only [hd, if_false]
      exact ⟨hnp, hnq, hnd, hpd, hqd⟩
  | renameOp k =>
    exact ⟨hnp, hnq, hnd, hpd, hqd⟩

theorem qwf_qrun (cap : Int) (s : QState) (ops : List QOp)
    (h : QWF s) (hsafe : safeAdds cap s ops = true) :
    QWF (qrun cap s ops) := by
  induction ops generalizing s with
  | nil => simpa [qrun] using h
  | cons op rest ih =>
    unfold safeAdds at hsafe
    rw [Bool.and_eq_true] at hsafe
    obtain ⟨hop, hrest⟩ := hsafe
    have hstep : QWF (qstep cap s op) := by
      refine qwf_qstep cap s op h ?_
      intro k b hk
      subst hk
      simp only [Bool.and_eq_true, Bool.not_eq_true', decide_eq_false_iff_not]
        at hop
      exact hop
    simpa [qrun] using ih (qstep cap s op) hstep hrest

/-- C1 (counterexample): the claimed invariant — a storage key lies in at
most one of {pending, active/queue, done} after every sequence of
operations — is false as stated: `add` only checks the active queue
(`self.queue.exists(key)`), so adding a URL without auto-start and then
adding the same URL with auto-start leaves it in both `pending` and
`queue`. -/
theorem c1_counterexample_add_duplicates :
    ¬ Disjoint3 (qrun 200 QState.empty
      [QOp.addEntry "u" false, QOp.addEntry "u" true]) := by
  decide

/-- C1 (amended): every operation of the ytdl `DownloadQueue` other than
`add` preserves pairwise disjointness of {pending, queue, done}; `add`
preserves it as well provided its key is not already stored in `pending`
or `done` (the code only guards against `queue`).  Hence along any
operation sequence whose `add`s use keys fresh for `pending` and `done`,
a well-formed state stays well-formed and the partitions stay disjoint at
every observation point. -/
theorem c1_partition_disjointness (cap : Int) (s : QState) (ops : List QOp)
    (h : QWF s) (hsafe : safeAdds cap s ops = true) :
    Disjoint3 (qrun cap s ops) :=
  (qwf_qrun cap s ops h hsafe).2.2.2

theorem c1_partition_disjointness_witness :
    QWF QState.empty ∧
    safeAdds 200 QState.empty
      [QOp.addEntry "a" false, QOp.addEntry "b" true, QOp.startPending "a",
       QOp.finalize "b" false, QOp.cancelOp "a" false, QOp.addEntry "c" true,
       QOp.finalize "c" true, QOp.clearOp "b" true] = true ∧
    Disjoint3 (qrun 200 QState.empty
      [QOp.addEntry "a" false, QOp.addEntry "b" true, QOp.startPending "a",
       QOp.finalize "b" false, QOp.cancelOp "a" false, QOp.addEntry "c" true,
       QOp.finalize "c" true, QOp.clearOp "b" true]) :=
  ⟨by decide, by decide,
    c1_partition_disjointness 200 QState.empty _ (by decide) (by decide)⟩

/-! ## C5 — history retention

`ProxyDownloadManager._enforce_history_limit` (and the identical methods of
the Seedr and gallery-dl managers): `None` disables eviction, `limit <= 0`
clears the whole done partition, otherwise the oldest entries are popped
until at most `limit` remain.  The ytdl queue instead guards its
`truncate` call with `max_history_items >= 0`, so there a negative cap
performs no eviction. -/

def enforceHistoryLimit {α : Type} (maxHistoryItems : Option Int) (done : List α) :
    List α :=
  match maxHistoryItems with
  | none => done
  | some limit => if limit ≤ 0 then [] else evictOldest limit.toNat done

/-- The ytdl call sites: `if self.max_history_items >= 0:
self.done.truncate(self.max_history_items)`. -/
def ytdlDoneAfterMutation (cap : Int) (done : List String) : List String :=
  if cap ≥ 0 then truncateQueue (some cap) done else done

/-- Completing a job inserts it into `done` and immediately re-enforces the
retention cap (`self.done[storage_key] = job` followed by
`_persist_completed`). -/
def completeJobs (cap : Option Int) (done : List String)
    (jobs : List String) : List String :=
  jobs.foldl (fun d k => enforceHistoryLimit cap (odPut d k)) done

theorem odPut_of_not_mem {l : List String} {k : String} (h : k ∉ l) :
    odPut l k = l ++ [k] := by
  simp [odPut, h]

theorem completeJobs_eq_drop (K : Nat) (hK : 0 < K) :
    ∀ (jobs d : List String), (∀ k ∈ jobs, k ∉ d) → jobs.Nodup →
      d.length ≤ K →
      completeJobs (some (K : Int)) d jobs =
        (d ++ jobs).drop ((d ++ jobs).length - K) := by
  intro jobs
  induction jobs with
  | nil =>
    intro d _ _ hlen
    have h0 : d.length - K = 0 := by omega
    simp [completeJobs, h0]
  | cons j rest ih =>
    intro d hfresh hnd hlen
    have hj : j ∉ d := hfresh j (List.mem_cons_self j rest)
    have hKpos : ¬ ((K : Int) ≤ 0) := by exact_mod_cast Nat.not_le.mpr hK
    have htoNat : ((K : Int)).toNat = K := Int.toNat_natCast K
    have hstep :
        enforceHistoryLimit (some (K : Int)) (odPut d j) =
          (d ++ [j]).drop (d.length + 1 - K) := by
      rw [odPut_of_not_mem hj]
      simp only [enforceHistoryLimit, hKpos, if_false, htoNat,
        evictOldest_eq_drop, List.length_append, List.length_singleton]
    have hfresh' : ∀ k ∈ rest, k ∉ (d ++ [j]).drop (d.length + 1 - K) := by
      intro k hk hmem
      have hk' : k ∈ d ++ [j] := List.mem_of_mem_drop hmem
      rcases List.mem_append.mp hk' with hm | hm
      · exact hfresh k (List.mem_cons_of_mem j hk) hm
      · simp only [List.mem_singleton] at hm
        subst hm
        exact (List.nodup_cons.mp hnd).1 hk
    have hlen' : ((d ++ [j]).drop (d.length + 1 - K)).length ≤ K := by
      simp only [List.length_drop, List.length_append, List.length_singleton]
      omega
    have hdropOk : d.length + 1 - K ≤ (d ++ [j]).length := by
      simp only [List.length_append, List.length_singleton]
      omega
    unfold completeJobs
    simp only [List.foldl_cons]
    rw [hstep]
    have := ih ((d ++ [j]).drop (d.length + 1 - K)) hfresh'
      (List.nodup_cons.mp hnd).2 hlen'
    unfold completeJobs at this
    rw [this]
    rw [List.append_cons d j rest]
    rw [← List.drop_append_of_le_length hdropOk, List.drop_drop]
    have hamt : d.length + 1 - K +
          ((List.drop (d.length + 1 - K) (d ++ [j] ++ rest)).length - K) =
        (d ++ [j] ++ rest).length - K := by
      simp only [List.length_drop, List.length_append, List.length_singleton]
      omega
    rw [hamt]

/-- C5 (counterexample): the claim says a negative retention cap disables
eviction, but `_enforce_history_limit` of the proxy (and Seedr/gallery-dl)
managers treats every `limit <= 0` as "clear the whole done partition". -/
theorem c5_counterexample_negative_cap :
    enforceHistoryLimit (some (-1)) ["a"] ≠ ["a"] := by
  decide

/-- C5 (amended): with cap `K > 0`, completing `K + M` jobs (fresh keys)
leaves exactly the `K` most recently completed ones, evicting oldest-first;
a cap of `0` clears the done partition on every mutation (both the ytdl
`truncate` and the `_enforce_history_limit` family); an absent cap
disables eviction; a negative cap disables eviction for the ytdl queue
(its `truncate` call is guarded by `max_history_items >= 0`) but clears
the done partition for the proxy/Seedr/gallery-dl managers, exactly like
a cap of `0`. -/
theorem c5_retention (K M : Nat) (jobs : List String) (d : List String)
    (hK : 0 < K) (hnd : jobs.Nodup) (hlen : jobs.length = K + M) :
    (completeJobs (some (K : Int)) [] jobs = jobs.drop M ∧
      (jobs.drop M).length = K) ∧
    (enforceHistoryLimit (some 0) d = [] ∧ truncateQueue (some 0) d = []) ∧
    (∀ c : Int, c < 0 →
      ytdlDoneAfterMutation c d = d ∧ enforceHistoryLimit (some c) d = []) ∧
    enforceHistoryLimit none d = d := by
  refine ⟨⟨?_, ?_⟩, ⟨?_, ?_⟩, ?_, rfl⟩
  · have := completeJobs_eq_drop K hK jobs [] (by simp) hnd (by simp)
    rw [this]
    simp only [List.nil_append]
    congr 1
    omega
  · simp only [List.length_drop, hlen]
    omega
  · simp [enforceHistoryLimit]
  · simp [truncateQueue]
  · intro c hc
    constructor
    · have : ¬ c ≥ 0 := by omega
      simp [ytdlDoneAfterMutation, this]
    · have : c ≤ 0 := by omega
      simp [enforceHistoryLimit, this]

theorem c5_retention_witness :
    completeJobs (some 2) [] ["a", "b", "c"] = ["b", "c"] ∧
    enforceHistoryLimit (some 0) ["x"] = [] ∧
    ytdlDoneAfterMutation (-1) ["x"] = ["x"] ∧
    enforceHistoryLimit (some (-1)) ["x"] = [] ∧
    enforceHistoryLimit none ["x"] = ["x"] :=
  have h := c5_retention 2 1 ["a", "b", "c"] ["x"] (by decide) (by decide)
    (by decide)
  ⟨h.1.1, h.2.1.1, (h.2.2.1 (-1) (by decide)).1, (h.2.2.1 (-1) (by decide)).2,
    h.2.2.2⟩

/-! ## C4 — pre-flight size estimate in `DownloadQueue.__add_download`

`_estimate_download_size` consults, in order: the declared
`filesize`/`filesize_approx`/`filesize_estimate`/`filesize_approximation`
of the entry, the summed sizes of `requested_downloads`, of
`requested_formats`, and of `fragments`.  `__add_download` rejects with
`_format_limit_error` before creating any record when the estimate
exceeds the currently resolved limit. -/

/-- Python `x or y` on optional numbers: `None` and `0` are falsy. -/
def falsyOr (a b : Option Int) : Option Int :=
  match a with
  | none => b
  | some v => if v = 0 then b else some v

/-- The `for key in (...)` loop: first declared size that is `> 0`. -/
def firstPositive : List (Option Int) → Option Int
  | [] => none
  | none :: rest => firstPositive rest
  | some v :: rest => if v > 0 then some v else firstPositive rest

structure SizedItem where
  filesize : Option Int
  filesize_approx : Option Int
  filesize_estimate : Option Int
  deriving DecidableEq, Repr

structure FragmentItem where
  filesize : Option Int
  filesize_approx : Option Int
  deriving DecidableEq, Repr

/-- The fields of the yt-dlp metadata entry consulted by
`_estimate_download_size`. -/
structure InfoEntry where
  filesize : Option Int
  filesize_approx : Option Int
  filesize_estimate : Option Int
  filesize_approximation : Option Int
  requested_downloads : Option (List SizedItem)
  requested_formats : Option (List SizedItem)
  fragments : Option (List FragmentItem)
  deriving DecidableEq, Repr

/-- `_accumulate(items)`: sum the positive declared sizes; `None` when no
item declares one. -/
def accumulateSized (items : List SizedItem) : Option Int :=
  let r := items.foldl
    (fun acc item =>
      match falsyOr item.filesize
          (falsyOr item.filesize_approx item.filesize_estimate) with
      | some v => if v > 0 then (acc.1 + v, true) else acc
      | none => acc)
    ((0 : Int), false)
  if r.2 then some r.1 else none

/-- The `fragments` loop of `_estimate_download_size`. -/
def accumulateFragments (frags : List FragmentItem) : Option Int :=
  let r := frags.foldl
    (fun acc frag =>
      match falsyOr frag.filesize frag.filesize_approx with
      | some v => if v > 0 then (acc.1 + v, true) else acc
      | none => acc)
    ((0 : Int), false)
  if r.2 then some r.1 else none

/-- `DownloadQueue._estimate_download_size` (a missing / non-dict entry is
`none`). -/
def estimateDownloadSize (entry : Option InfoEntry) : Option Int :=
  match entry with
  | none => none
  | some e =>
    match firstPositive
        [e.filesize, e.filesize_approx, e.filesize_estimate,
         e.filesize_approximation] with
    | some v => some v
    | none =>
      match (match e.requested_downloads with
             | some items => accumulateSized items
             | none => none) with
      | some v => some v
      | none =>
        match (match e.requested_formats with
               | some items => accumulateSized items
               | none => none) with
        | some v => some v
        | none =>
          match e.fragments with
          | some frags => accumulateFragments frags
          | none => none

/-- `DownloadQueue._current_size_limit`: a missing or non-positive limit
means "no limit". -/
def resolveSizeLimit (raw : Option Int) : Option Int :=
  match raw with
  | none => none
  | some l => if l ≤ 0 then none else some l

/-- `math.ceil(x / (1024 * 1024))` for a non-negative byte count. -/
def mbCeil (x : Int) : Nat :=
  (x.toNat + 1048575) / 1048576

/-- `DownloadQueue._format_limit_error`. -/
def formatLimitError (estimatedBytes limitBytes : Int) : String :=
  let estimatedMb := max 1 (mbCeil estimatedBytes)
  let limitMb := max 1 (mbCeil limitBytes)
  "This download is estimated at " ++ toString estimatedMb ++
    " MB which exceeds the configured size limit of " ++ toString limitMb ++
    " MB."

inductive AddOutcome where
  | errorMsg (msg : String)
  | ok
  deriving DecidableEq, Repr

/-- The record-creation tail of `__add_download` (auto-start inserts into
the active queue, otherwise into pending). -/
def ytdlInsert (s : QState) (key : String) (autoStart : Bool) : QState :=
  if autoStart then { s with queue := odPut s.queue key }
  else { s with pending := odPut s.pending key }

/-- `DownloadQueue.__add_download`, restricted to the size-limit gate and
the partition effect: reject (creating nothing) when both a limit and an
estimate exist and the estimate exceeds the limit, otherwise create the
record. -/
def ytdlAddDownload (s : QState) (key : String) (autoStart : Bool)
    (rawLimit : Option Int) (entry : Option InfoEntry) :
    AddOutcome × QState :=
  match resolveSizeLimit rawLimit, estimateDownloadSize entry with
  | some l, some e =>
      if e > l then (.errorMsg (formatLimitError e l), s)
      else (.ok, ytdlInsert s key autoStart)
  | some _, none => (.ok, ytdlInsert s key autoStart)
  | none, _ => (.ok, ytdlInsert s key autoStart)

/-- C4: whenever the source metadata exposes an estimated size strictly
greater than the resolved size limit, `add` returns an error carrying the
MB-rounded (each at least 1 MB) estimate-vs-limit message, and no record
is created in any partition. -/
theorem c4_preflight_rejection (s : QState) (key : String) (autoStart : Bool)
    (rawLimit : Option Int) (entry : Option InfoEntry) (L E : Int)
    (hL : resolveSizeLimit rawLimit = some L)
    (hE : estimateDownloadSize entry = some E)
    (hgt : E > L) :
    ytdlAddDownload s key autoStart rawLimit entry =
      (.errorMsg (formatLimitError E L), s) ∧
    1 ≤ max 1 (mbCeil E) ∧ 1 ≤ max 1 (mbCeil L) := by
  refine ⟨?_, le_max_left 1 _, le_max_left 1 _⟩
  unfold ytdlAddDownload
  rw [hL, hE]
  simp [hgt]

theorem c4_preflight_rejection_witness :
    ytdlAddDownload QState.empty "u" true (some 2097152)
        (some
          { filesize := none, filesize_approx := none,
            filesize_estimate := none, filesize_approximation := none,
            requested_downloads := none,
            requested_formats := some
              [{ filesize := some 2097152, filesize_approx := none,
                 filesize_estimate := none },
               { filesize := none, filesize_approx := some 1048576,
                 filesize_estimate := none }],
            fragments := none }) =
      (.errorMsg
        ("This download is estimated at 3 MB which exceeds the configured " ++
          "size limit of 2 MB."), QState.empty) :=
  ((c4_preflight_rejection QState.empty "u" true (some 2097152) _
    2097152 3145728 (by decide) (by decide) (by decide)).1).trans (by decide)

/-! ## Association-list `OrderedDict` (done partitions carrying records) -/

/-- The terminal-record payload the claims consult. -/
structure DoneRec where
  status : String
  msg : Option String
  deriving DecidableEq, Repr

/-- `OrderedDict` assignment with a record payload: an existing key is
updated in place, a fresh key is appended. -/
def adPut {V : Type} : List (String × V) → String → V → List (String × V)
  | [], k, v => [(k, v)]
  | (k', v') :: rest, k, v =>
      if k' = k then (k, v) :: rest else (k', v') :: adPut rest k v

theorem adPut_of_not_mem {V : Type} {l : List (String × V)} {k : String}
    {v : V} (h : k ∉ l.map Prod.fst) : adPut l k v = l ++ [(k, v)] := by
  induction l with
  | nil => rfl
  | cons p rest ih =>
    obtain ⟨k', v'⟩ := p
    simp only [List.map_cons, List.mem_cons] at h
    push_neg at h
    simp only [adPut, Ne.symm h.1, if_false, List.cons_append]
    rw [ih h.2]

/-- With a positive cap, the most recently appended entry survives
truncation/enforcement. -/
theorem mem_truncate_append_last {α : Type} {cap : Int} (hcap : 0 < cap)
    (l : List α) (x : α) : x ∈ truncateQueue (some cap) (l ++ [x]) := by
  have hneg : ¬ cap ≤ 0 := by omega
  have hm : (l ++ [x]).length - cap.toNat ≤ l.length := by
    have : 1 ≤ cap.toNat := by omega
    simp only [List.length_append, List.length_singleton]
    omega
  simp only [truncateQueue, hneg, if_false, evictOldest_eq_drop]
  rw [List.drop_append_of_le_length hm]
  exact List.mem_append_right _ (List.mem_singleton_self x)

/-! ## C3 — mid-flight size-limit enforcement

ytdl side: `Download._calculate_limit_violation` inspects every progress
message for a reported total (`total_bytes or total_bytes_estimate`) or
downloaded byte count above the limit, and `_abort_for_limit` kills the
worker process and finalizes the record as an error carrying
`_format_limit_message`.  Proxy side: `_run_download` checks only the
`Content-Length` header before the transfer; the chunk loop never
compares `downloaded_bytes` against `job.size_limit`.
-/

/-- One message from the yt-dlp progress hook, restricted to the keys the
orchestration logic reads (the `filename`-key disk bookkeeping and the
cookie-warning side channel are not consulted by any claim). -/
structure StatusDict where
  status : String
  msg : Option String
  tmpfilename : Option String
  total_bytes : Option Int
  total_bytes_estimate : Option Int
  downloaded_bytes : Option Int
  speed : Option Int
  eta : Option Int
  deriving DecidableEq, Repr

/-- The mutable state of a ytdl `Download` and its `info` record. -/
structure YtDownload where
  sizeLimitBytes : Option Int
  status : String
  msg : Option String
  err : Option String
  percent : Option Rat
  speed : Option Int
  eta : Option Int
  tmpfilename : Option String
  canceledFlag : Bool
  procAlive : Bool
  deriving DecidableEq, Repr

/-- The `downloaded_bytes` arm of `_calculate_limit_violation`. -/
def checkDownloaded (limit : Int) (downloaded : Option Int) : Option Int :=
  match downloaded with
  | some d => if d > limit then some d else none
  | none => none

/-- `Download._calculate_limit_violation`. -/
def calculateLimitViolation (sizeLimitBytes : Option Int) (st : StatusDict) :
    Option Int :=
  match sizeLimitBytes with
  | none => none
  | some limit =>
    if limit = 0 then none
    else
      match falsyOr st.total_bytes st.total_bytes_estimate with
      | some t =>
          if t > limit then some t else checkDownloaded limit st.downloaded_bytes
      | none => checkDownloaded limit st.downloaded_bytes

/-- `Download._format_limit_message`. -/
def formatLimitMessage (sizeLimitBytes : Option Int) (approxBytes : Int) :
    String :=
  let limit : Int := match sizeLimitBytes with | some v => v | none => 0
  let limitMb : Nat := if limit ≠ 0 then max 1 (mbCeil limit) else 0
  let approxMb : Nat := max 1 (mbCeil approxBytes)
  if limitMb > 0 then
    "This download requires approximately " ++ toString approxMb ++
      " MB which exceeds the configured size limit of " ++ toString limitMb ++
      " MB."
  else
    "This download requires approximately " ++ toString approxMb ++
      " MB and cannot be processed due to the configured size limit."

/-- `Download._abort_for_limit`: record the limit error and kill the
worker process (the closing `None` put makes the status task stop). -/
def abortForLimit (dl : YtDownload) (approxBytes : Int) : YtDownload :=
  let message := formatLimitMessage dl.sizeLimitBytes approxBytes
  { dl with
      status := "error", msg := some message, err := some message,
      percent := some 0, procAlive := false }

/-- One iteration of `Download.update_status` on a progress message; the
`Bool` is true when the status task returns (abort or cooperative
cancel). -/
def updateStatusStep (dl : YtDownload) (st : StatusDict) : YtDownload × Bool :=
  match calculateLimitViolation dl.sizeLimitBytes st with
  | some v => (abortForLimit dl v, true)
  | none =>
    if dl.canceledFlag then (dl, true)
    else
      let percentNew :=
        match st.downloaded_bytes with
        | some d =>
          match falsyOr st.total_bytes st.total_bytes_estimate with
          | some t =>
              if t = 0 then dl.percent else some ((d : Rat) / (t : Rat) * 100)
          | none => dl.percent
        | none => dl.percent
      ({ dl with
          tmpfilename := st.tmpfilename
          status := st.status
          msg := st.msg
          percent := percentNew
          speed := st.speed
          eta := st.eta }, false)

inductive Notice where
  | canceledN
  | completedN
  | noneN
  deriving DecidableEq, Repr

structure CleanupResult where
  dl : YtDownload
  queue : List String
  done : List (String × DoneRec)
  fs : List String
  notice : Notice
  deriving DecidableEq, Repr

/-- `DownloadQueue._post_download_cleanup` (the cookie-status bookkeeping
is a separate subsystem not consulted by any claim): a non-finished
download has its temp file removed and is coerced to `error`; a record
still in the active queue is then either dropped with a `canceled`
notification or moved into `done` (truncated when the cap is
non-negative) with a `completed` notification. -/
def postDownloadCleanup (dl : YtDownload) (key : String) (queue : List String)
    (done : List (String × DoneRec)) (cap : Int) (fs : List String) :
    CleanupResult :=
  let fs2 :=
    if dl.status ≠ "finished" then
      match dl.tmpfilename with
      | some tmp => if tmp ∈ fs then fs.erase tmp else fs
      | none => fs
    else fs
  let dl2 := if dl.status ≠ "finished" then { dl with status := "error" } else dl
  if key ∈ queue then
    if dl2.canceledFlag then
      ⟨dl2, odErase queue key, done, fs2, .canceledN⟩
    else
      let doneNew := adPut done key ⟨dl2.status, dl2.msg⟩
      let doneNew :=
        if cap ≥ 0 then truncateQueue (some cap) doneNew else doneNew
      ⟨dl2, odErase queue key, doneNew, fs2, .completedN⟩
  else ⟨dl2, queue, done, fs2, .noneN⟩

/-- Inputs of one `ProxyDownloadManager._run_download` execution.
`netError` stands for an HTTP status `>= 400` or a connection failure
raised by the GET (before the output file is created); `cancelAt` is the
chunk index from which `_cancel_requested` is observed. -/
structure ProxyRunInput where
  sizeLimit : Option Int
  directoryOk : Bool
  netError : Option String
  contentLength : Option Int
  chunks : List Int
  cancelAt : Option Nat
  deriving DecidableEq, Repr

structure ProxyRunResult where
  status : String
  msg : Option String
  downloadedBytes : Int
  fileOnDisk : Bool
  notifiedCanceled : Bool
  deriving DecidableEq, Repr

/-- The `async for chunk in resp.content.iter_chunked(...)` loop: per
chunk, first honor a pending cancellation, skip empty chunks, otherwise
write and count the bytes.  No size-limit comparison occurs here. -/
def proxyChunkLoop (cancelAt : Option Nat) : Nat → Int → List Int → Int × Bool
  | _, acc, [] => (acc, false)
  | i, acc, c :: rest =>
      if (match cancelAt with | some j => decide (j ≤ i) | none => false) then
        (acc, true)
      else if c = 0 then proxyChunkLoop cancelAt (i + 1) acc rest
      else proxyChunkLoop cancelAt (i + 1) (acc + c) rest

/-- `ProxyDownloadManager._run_download`: pre-transfer failures (missing
directory, GET failure, `Content-Length` above the limit) finalize as
`error` without touching `done`; a cooperative cancel removes the partial
file and notifies `canceled`; only a completed transfer is inserted into
`done` (followed by `_persist_completed`, which re-enforces the cap). -/
def proxyRunDownload (key : String) (inp : ProxyRunInput)
    (queue : List String) (done : List (String × DoneRec))
    (cap : Option Int) :
    ProxyRunResult × List String × List (String × DoneRec) :=
  if ¬ inp.directoryOk then
    (⟨"error", some "Download directory unavailable.", 0, false, false⟩,
      odErase queue key, done)
  else
    match inp.netError with
    | some m => (⟨"error", some m, 0, false, false⟩, odErase queue key, done)
    | none =>
      let limitHit :=
        match inp.sizeLimit, inp.contentLength with
        | some l, some t => decide (t ≠ 0 ∧ t > l)
        | _, _ => false
      if limitHit then
        (⟨"error", some "File exceeds configured size limit", 0, false, false⟩,
          odErase queue key, done)
      else
        match proxyChunkLoop inp.cancelAt 0 0 inp.chunks with
        | (dbytes, true) =>
            (⟨"canceled", some "Download canceled", dbytes, false, true⟩,
              odErase queue key, done)
        | (dbytes, false) =>
            (⟨"finished", none, dbytes, true, false⟩, odErase queue key,
              enforceHistoryLimit cap (adPut done key ⟨"finished", none⟩))

/-- `SeedrDownloadManager._finalize_error`: set the error status and
message, pop the active queue, insert into `done` and persist (which
re-enforces the history cap). -/
def seedrFinalizeError (key : String) (message : String)
    (queue : List String) (done : List (String × DoneRec))
    (cap : Option Int) : List String × List (String × DoneRec) :=
  (odErase queue key,
    enforceHistoryLimit cap (adPut done key ⟨"error", some message⟩))

/-- The Seedr cancellation path after `_monitor_torrent` gives up:
`self.queue.pop(...)` plus a `canceled` notification; `done` untouched. -/
def seedrCancelCleanup (key : String) (queue : List String)
    (done : List (String × DoneRec)) :
    List String × List (String × DoneRec) :=
  (odErase queue key, done)

/-- `GalleryDlManager._finalize_failure`: pop the active queue, insert the
(error-status) record into `done` and persist. -/
def gdlFinalizeFailure (key : String) (status : String) (msg : Option String)
    (queue : List String) (done : List (String × DoneRec))
    (cap : Option Int) : List String × List (String × DoneRec) :=
  (odErase queue key, enforceHistoryLimit cap (adPut done key ⟨status, msg⟩))

/-- The gallery-dl cancellation path inside `_run_job`: pop the active
queue and clean the temp dir; `done` untouched. -/
def gdlCancelCleanup (key : String) (queue : List String)
    (done : List (String × DoneRec)) :
    List String × List (String × DoneRec) :=
  (odErase queue key, done)

theorem proxyChunkLoop_no_cancel (i : Nat) (acc : Int) (chunks : List Int) :
    (proxyChunkLoop none i acc chunks).2 = false := by
  induction chunks generalizing i acc with
  | nil => rfl
  | cons c rest ih =>
    unfold proxyChunkLoop
    by_cases hc : c = 0
    · simpa [hc] using ih (i + 1) acc
    · simpa [hc] using ih (i + 1) (acc + c)

/-- C3 (counterexample): a proxy job with limit 1000 bytes and no
`Content-Length` streams 1200 bytes and still finalizes as `finished`
with the file kept on disk and the record inserted into history — the
chunk loop never compares downloaded bytes against the limit, so the
claimed mid-flight abort does not happen. -/
theorem c3_counterexample_proxy_no_midflight :
    (proxyRunDownload "k"
      { sizeLimit := some 1000, directoryOk := true, netError := none,
        contentLength := none, chunks := [600, 600], cancelAt := none }
      ["k"] [] (some 200)).1 =
      { status := "finished", msg := none, downloadedBytes := 1200,
        fileOnDisk := true, notifiedCanceled := false } := by
  decide

/-- C3 (amended): the local-tool executor enforces the limit mid-flight —
as soon as a progress message reports a downloaded byte count above the
limit (with no reported total), the status task aborts: the worker
process is killed and the record carries the MB-rounded limit message,
and the subsequent cleanup removes the partial (temp) file and finalizes
the record as `error` in `done`.  The proxy executor instead aborts only
on a `Content-Length` header above the limit, with the plain message
`File exceeds configured size limit`, and with no reported total it never
aborts mid-flight: the transfer always finalizes as `finished`. -/
theorem c3_midflight_enforcement
    (dl : YtDownload) (st : StatusDict) (L d : Int)
    (key : String) (queue : List String) (done : List (String × DoneRec))
    (cap : Int) (fs : List String) (tmp : String)
    (inp : ProxyRunInput) (pcap : Option Int) (t LP : Int)
    (hL : dl.sizeLimitBytes = some L) (hL0 : L ≠ 0)
    (htot : st.total_bytes = none) (hest : st.total_bytes_estimate = none)
    (hdb : st.downloaded_bytes = some d) (hgt : d > L)
    (habort : dl.status = "error") (htmp : dl.tmpfilename = some tmp)
    (htmpfs : tmp ∈ fs) (hnc : dl.canceledFlag = false)
    (hkq : key ∈ queue) (hcap : 0 < cap)
    (hkd : key ∉ done.map Prod.fst)
    (hdir : inp.directoryOk = true) (hnet : inp.netError = none)
    (hplim : inp.sizeLimit = some LP) (hclen : inp.contentLength = some t)
    (ht0 : t ≠ 0) (htgt : t > LP) :
    (updateStatusStep dl st = (abortForLimit dl d, true) ∧
      (abortForLimit dl d).status = "error" ∧
      (abortForLimit dl d).msg = some (formatLimitMessage (some L) d) ∧
      (abortForLimit dl d).procAlive = false) ∧
    ((postDownloadCleanup dl key queue done cap fs).fs = fs.erase tmp ∧
      (key, ⟨"error", dl.msg⟩) ∈ (postDownloadCleanup dl key queue done cap fs).done ∧
      (postDownloadCleanup dl key queue done cap fs).notice = .completedN) ∧
    ((proxyRunDownload key inp queue done pcap).1.status = "error" ∧
      (proxyRunDownload key inp queue done pcap).1.msg =
        some "File exceeds configured size limit") ∧
    (∀ inp2 : ProxyRunInput, inp2.directoryOk = true → inp2.netError = none →
      inp2.contentLength = none → inp2.cancelAt = none →
      (proxyRunDownload key inp2 queue done pcap).1.status = "finished") := by
  have hviol : calculateLimitViolation dl.sizeLimitBytes st = some d := by
    simp [calculateLimitViolation, hL, hL0, htot, hest, falsyOr,
      checkDownloaded, hdb, hgt]
  have herr : (proxyRunDownload key inp queue done pcap).1 =
      ⟨"error", some "File exceeds configured size limit", 0, false, false⟩ := by
    unfold proxyRunDownload
    rw [hnet, hplim, hclen]
    simp [hdir, ht0, htgt]
  refine ⟨⟨?_, rfl, ?_, rfl⟩, ⟨?_, ?_, ?_⟩, ⟨?_, ?_⟩, ?_⟩
  · simp [updateStatusStep, hviol]
  · simp [abortForLimit, hL]
  · have hne : dl.status ≠ "finished" := by rw [habort]; decide
    simp [postDownloadCleanup, hne, htmp, htmpfs, hkq, hnc]
  · have hne : dl.status ≠ "finished" := by rw [habort]; decide
    have hge : cap ≥ 0 := by omega
    simp only [postDownloadCleanup, hne, if_true, ne_eq,
      not_true_eq_false, if_false, hkq, hnc, hge, ite_true, habort]
    rw [adPut_of_not_mem hkd]
    exact mem_truncate_append_last hcap done (key, ⟨"error", dl.msg⟩)
  · have hne : dl.status ≠ "finished" := by rw [habort]; decide
    simp [postDownloadCleanup, hne, hkq, hnc]
  · rw [herr]
  · rw [herr]
  · intro inp2 h1 h2 h3 h4
    rcases hr : proxyChunkLoop inp2.cancelAt 0 0 inp2.chunks with ⟨db, flag⟩
    have hflag : flag = false := by
      rw [h4] at hr
      have hl := proxyChunkLoop_no_cancel 0 0 inp2.chunks
      rw [hr] at hl
      exact hl
    subst hflag
    unfold proxyRunDownload
    rw [h2, h3, hr]
    cases inp2.sizeLimit <;> simp [h1]

/-- A local-tool download that was aborted for the size limit (status
already coerced to `error`), used to witness the mid-flight theorem. -/
def dlLimitSample : YtDownload :=
  { sizeLimitBytes := some 1000, status := "error", msg := some "m",
    err := none, percent := none, speed := none, eta := none,
    tmpfilename := some "t.part", canceledFlag := false, procAlive := true }

def stLimitSample : StatusDict :=
  { status := "downloading", msg := none, tmpfilename := some "t.part",
    total_bytes := none, total_bytes_estimate := none,
    downloaded_bytes := some 1500, speed := none, eta := none }

def inpLimitSample : ProxyRunInput :=
  { sizeLimit := some 1000, directoryOk := true, netError := none,
    contentLength := some 2000, chunks := [], cancelAt := none }

theorem c3_midflight_enforcement_witness :
    updateStatusStep dlLimitSample stLimitSample =
      (abortForLimit dlLimitSample 1500, true) ∧
    (postDownloadCleanup dlLimitSample "k" ["k"] [] 5 ["t.part"]).notice =
      Notice.completedN ∧
    (proxyRunDownload "k" inpLimitSample ["k"] [] (some 5)).1.status =
      "error" :=
  have h := c3_midflight_enforcement dlLimitSample stLimitSample 1000 1500
    "k" ["k"] [] 5 ["t.part"] "t.part" inpLimitSample (some 5) 2000 1000
    (by decide) (by decide) (by decide) (by decide) (by decide) (by decide)
    (by decide) (by decide) (by decide) (by decide) (by decide) (by decide)
    (by decide) (by decide) (by decide) (by decide) (by decide) (by decide)
    (by decide)
  ⟨h.1.1, h.2.1.2.2, h.2.2.1.1⟩

/-! ## C2 — terminal-state insertion into `done`

ytdl (`_post_download_cleanup`), Seedr (`_finalize_error`) and gallery-dl
(`_finalize_failure`) insert error records into `done`; the proxy
`_run_download` error paths pop the queue and return without ever
inserting the record.  Canceled-after-active records are dropped by all
four providers. -/

theorem enforceHistoryLimit_eq_truncateQueue {α : Type} (cap : Option Int)
    (l : List α) : enforceHistoryLimit cap l = truncateQueue cap l := rfl

theorem postDownloadCleanup_error_proj (dl : YtDownload) (key : String)
    (queue : List String) (done : List (String × DoneRec)) (cap : Int)
    (fs : List String) (hnf : dl.status ≠ "finished")
    (hnc : dl.canceledFlag = false) (hkq : key ∈ queue) (hcge : cap ≥ 0) :
    (postDownloadCleanup dl key queue done cap fs).done =
      truncateQueue (some cap) (adPut done key ⟨"error", dl.msg⟩) ∧
    (postDownloadCleanup dl key queue done cap fs).notice = .completedN := by
  unfold postDownloadCleanup
  simp [hnf, hnc, hkq, hcge]

theorem postDownloadCleanup_canceled_proj (dl : YtDownload) (key : String)
    (queue : List String) (done : List (String × DoneRec)) (cap : Int)
    (fs : List String) (hcflag : dl.canceledFlag = true) (hkq : key ∈ queue) :
    (postDownloadCleanup dl key queue done cap fs).done = done ∧
    (postDownloadCleanup dl key queue done cap fs).notice = .canceledN := by
  unfold postDownloadCleanup
  by_cases hnf : dl.status = "finished" <;> simp [hnf, hkq, hcflag]

theorem proxyRunDownload_cases (key : String) (inp : ProxyRunInput)
    (queue : List String) (done : List (String × DoneRec))
    (pcap : Option Int) :
    ((proxyRunDownload key inp queue done pcap).1.status = "finished" ∧
      (proxyRunDownload key inp queue done pcap).2.2 =
        enforceHistoryLimit pcap (adPut done key ⟨"finished", none⟩)) ∨
    ((((proxyRunDownload key inp queue done pcap).1.status = "error" ∧
        (proxyRunDownload key inp queue done pcap).1.msg ≠ none) ∨
      (proxyRunDownload key inp queue done pcap).1.status = "canceled") ∧
      (proxyRunDownload key inp queue done pcap).2.2 = done) := by
  unfold proxyRunDownload
  cases hdir : inp.directoryOk with
  | false =>
    right
    simp
  | true =>
    cases hnet : inp.netError with
    | some m =>
      right
      simp
    | none =>
      cases hhit : (match inp.sizeLimit, inp.contentLength with
          | some l, some t => decide (t ≠ 0 ∧ t > l)
          | _, _ => false) with
      | true =>
        right
        simp only [hhit, not_true_eq_false, if_false, if_true,
          Bool.true_eq_false]
        simp
      | false =>
        rcases hr : proxyChunkLoop inp.cancelAt 0 0 inp.chunks with ⟨db, flag⟩
        cases flag with
        | true =>
          right
          simp only [hhit, hr, Bool.false_eq_true, if_false, not_true_eq_false]
          simp
        | false =>
          left
          simp only [hhit, hr, Bool.false_eq_true, if_false, not_true_eq_false]
          simp

/-- C2 (counterexample): a proxy job rejected mid-run for exceeding the
size limit finalizes as `error` with its message set, yet the done
partition stays empty — the record is dropped, contradicting "always
inserted into the done partition". -/
theorem c2_counterexample_proxy_error_not_in_done :
    proxyRunDownload "k"
      { sizeLimit := some 1000, directoryOk := true, netError := none,
        contentLength := some 2000, chunks := [], cancelAt := none }
      ["k"] [] (some 200) =
      ({ status := "error", msg := some "File exceeds configured size limit",
         downloadedBytes := 0, fileOnDisk := false,
         notifiedCanceled := false }, [], []) := by
  decide

/-- C2 (amended): local-tool, Seedr and gallery-dl error finalizations
insert the record into `done` (with the message that was set), and their
cancel-after-active paths drop the record; the proxy provider sets the
message on every error but never inserts the record into `done` — its
error and cancel paths leave `done` unchanged. -/
theorem c2_terminal_insertion
    (dl : YtDownload) (key : String) (queue : List String)
    (done : List (String × DoneRec)) (cap : Int) (fs : List String)
    (c : Int) (pcap : Option Int) (m : String) (gmsg : Option String)
    (inp : ProxyRunInput)
    (hkq : key ∈ queue) (hcap : 0 < cap) (hc : 0 < c)
    (hkd : key ∉ done.map Prod.fst) :
    (dl.canceledFlag = false → dl.status ≠ "finished" →
      (key, ⟨"error", dl.msg⟩) ∈
        (postDownloadCleanup dl key queue done cap fs).done ∧
      (postDownloadCleanup dl key queue done cap fs).notice = .completedN) ∧
    (dl.canceledFlag = true →
      (postDownloadCleanup dl key queue done cap fs).done = done ∧
      (postDownloadCleanup dl key queue done cap fs).notice = .canceledN) ∧
    (key, DoneRec.mk "error" (some m)) ∈
      (seedrFinalizeError key m queue done (some c)).2 ∧
    (seedrCancelCleanup key queue done).2 = done ∧
    (key, DoneRec.mk "error" gmsg) ∈
      (gdlFinalizeFailure key "error" gmsg queue done (some c)).2 ∧
    (gdlCancelCleanup key queue done).2 = done ∧
    ((proxyRunDownload key inp queue done pcap).1.status = "error" →
      (proxyRunDownload key inp queue done pcap).2.2 = done ∧
      (proxyRunDownload key inp queue done pcap).1.msg ≠ none) ∧
    ((proxyRunDownload key inp queue done pcap).1.status = "canceled" →
      (proxyRunDownload key inp queue done pcap).2.2 = done) := by
  have hcge : cap ≥ 0 := by omega
  refine ⟨?_, ?_, ?_, rfl, ?_, rfl, ?_, ?_⟩
  · intro hnc hnf
    obtain ⟨hdone, hnotice⟩ :=
      postDownloadCleanup_error_proj dl key queue done cap fs hnf hnc hkq hcge
    refine ⟨?_, hnotice⟩
    rw [hdone, adPut_of_not_mem hkd]
    exact mem_truncate_append_last hcap done (key, ⟨"error", dl.msg⟩)
  · intro hcflag
    exact postDownloadCleanup_canceled_proj dl key queue done cap fs hcflag hkq
  · unfold seedrFinalizeError
    rw [enforceHistoryLimit_eq_truncateQueue, adPut_of_not_mem hkd]
    exact mem_truncate_append_last hc done (key, ⟨"error", some m⟩)
  · unfold gdlFinalizeFailure
    rw [enforceHistoryLimit_eq_truncateQueue, adPut_of_not_mem hkd]
    exact mem_truncate_append_last hc done (key, ⟨"error", gmsg⟩)
  · intro herr
    rcases proxyRunDownload_cases key inp queue done pcap with hfin | hother
    · rw [herr] at hfin
      exact absurd hfin.1 (by decide)
    · refine ⟨hother.2, ?_⟩
      rcases hother.1 with ⟨_, hmsg⟩ | hcanc
      · exact hmsg
      · rw [herr] at hcanc
        exact absurd hcanc (by decide)
  · intro hcanc
    rcases proxyRunDownload_cases key inp queue done pcap with hfin | hother
    · rw [hcanc] at hfin
      exact absurd hfin.1 (by decide)
    · exact hother.2

theorem c2_terminal_insertion_witness :
    (postDownloadCleanup dlLimitSample "k" ["k"] [] 5 []).notice =
      Notice.completedN ∧
    ("k", DoneRec.mk "error" (some "boom")) ∈
      (seedrFinalizeError "k" "boom" ["k"] [] (some 5)).2 ∧
    ((proxyRunDownload "k" inpLimitSample ["k"] [] (some 5)).1.status =
        "error" →
      (proxyRunDownload "k" inpLimitSample ["k"] [] (some 5)).2.2 = []) :=
  have h := c2_terminal_insertion dlLimitSample "k" ["k"] [] 5 [] 5 (some 5)
    "boom" none inpLimitSample (by decide) (by decide) (by decide) (by decide)
  ⟨(h.1 (by decide) (by decide)).2, h.2.2.1,
    fun herr => (h.2.2.2.2.2.2.1 herr).1⟩

/-! ## C6 — persistence write traces

A provider's `_persist_completed` is abstracted by the sequence of
file-system mutations it performs on the history file.  Seedr writes a
`.tmp` sibling and `os.replace`s it over the final path; the proxy and
gallery-dl managers `open(path, "w")` the final path directly, and the
ytdl `PersistentQueue` mutates its shelve database at the final path in
place. -/

inductive FsWrite where
  /-- open the file at `path` for writing (or mutate a database there). -/
  | writeFile (path : String)
  /-- `os.replace(src, dst)`. -/
  | replaceFile (src dst : String)
  deriving DecidableEq, Repr

/-- `SeedrDownloadManager._persist_completed`. -/
def seedrPersistWrites (historyPath : String) : List FsWrite :=
  [.writeFile (historyPath ++ ".tmp"),
   .replaceFile (historyPath ++ ".tmp") historyPath]

/-- `ProxyDownloadManager._persist_completed`. -/
def proxyPersistWrites (historyPath : String) : List FsWrite :=
  [.writeFile historyPath]

/-- `GalleryDlManager._persist_completed`. -/
def gdlPersistWrites (historyPath : String) : List FsWrite :=
  [.writeFile historyPath]

/-- `PersistentQueue.put` / `delete`: `shelve.open(self.path, "w")`. -/
def ytdlPersistWrites (historyPath : String) : List FsWrite :=
  [.writeFile historyPath]

/-- Atomic temp-file-then-rename persistence: the final path is never
opened for writing, the whole trace being a write of a distinct temp file
followed by renaming it over the final path. -/
def atomicTempRename (ops : List FsWrite) (finalPath : String) : Prop :=
  (∀ op ∈ ops, op ≠ FsWrite.writeFile finalPath) ∧
  ∃ tmp, tmp ≠ finalPath ∧
    ops = [.writeFile tmp, .replaceFile tmp finalPath]

theorem append_tmp_ne (p : String) : p ++ ".tmp" ≠ p := by
  intro h
  have hlen := congrArg String.length h
  rw [String.length_append] at hlen
  have h4 : (".tmp" : String).length = 4 := rfl
  rw [h4] at hlen
  omega

/-- C6 (counterexample): the proxy manager's history write opens the
final history file directly (`open(self.state_file, "w")`), so it is not
an atomic temp-file-then-rename trace. -/
theorem c6_counterexample_proxy_not_atomic :
    ¬ atomicTempRename (proxyPersistWrites "completed.json")
        "completed.json" := by
  intro h
  exact h.1 (FsWrite.writeFile "completed.json")
    (List.mem_singleton_self _) rfl

/-- C6 (amended): only the Seedr (remote-fetch) provider persists its
done history atomically via temp-file-then-rename; the proxy and
gallery-dl managers write the history file in place, and the ytdl queue
mutates its shelve database at the final path in place. -/
theorem c6_persistence_atomicity (p : String) :
    atomicTempRename (seedrPersistWrites p) p ∧
    proxyPersistWrites p = [.writeFile p] ∧
    gdlPersistWrites p = [.writeFile p] ∧
    ytdlPersistWrites p = [.writeFile p] := by
  refine ⟨⟨?_, p ++ ".tmp", append_tmp_ne p, rfl⟩, rfl, rfl, rfl⟩
  intro op hop
  simp only [seedrPersistWrites, List.mem_cons, List.mem_singleton] at hop
  rcases hop with h | h | h
  · subst h
    intro hcon
    exact append_tmp_ne p (FsWrite.writeFile.inj hcon)
  · subst h
    intro hcon
    cases hcon
  · cases h

/-! ## C7 — history round trip (proxy provider)

`DownloadInfo.__init__` re-applies the `custom_name_prefix` to the id and
title it is given; `_load_completed` rebuilds records by calling the
constructor on the already-prefixed persisted values, so a second prefix
is prepended on every reload.  Reload also fixes `percent := 100.0` and
clears `speed`/`eta`. -/

structure DlInfo where
  id : String
  title : String
  url : String
  quality : String
  fmt : String
  folder : String
  customNamePfx : String
  err : Option String
  filename : Option String
  msg : Option String
  percent : Option Rat
  speed : Option Int
  eta : Option Int
  status : String
  size : Option Int
  timestamp : Int
  originalUrl : String
  deriving DecidableEq, Repr

/-- `DownloadInfo.__init__` (`now` is the `time.time_ns()` reading; the
playlist/cookie/user bookkeeping carried by the constructor is not
consulted by any claim). -/
def mkDownloadInfo (id title url quality fmt folder namePfx : String)
    (err : Option String) (originalUrl : Option String) (now : Int) :
    DlInfo :=
  { id := if namePfx.length = 0 then id else namePfx ++ "." ++ id
    title := if namePfx.length = 0 then title else namePfx ++ "." ++ title
    url := url
    quality := quality
    fmt := fmt
    folder := folder
    customNamePfx := namePfx
    err := err
    filename := none
    msg := none
    percent := none
    speed := none
    eta := none
    status := "pending"
    size := none
    timestamp := now
    originalUrl :=
      match originalUrl with
      | some u => if u = "" then url else u
      | none => url }

/-- One JSON object of the proxy `completed.json` array, with exactly the
keys `_persist_completed` writes. -/
structure ProxyRecord where
  id : String
  url : String
  source_url : String
  original_url : String
  title : String
  filename : Option String
  folder : String
  size : Option Int
  status : String
  msg : Option String
  timestamp : Int
  file_path : Option String
  quality : String
  fmt : String
  customNamePfx : String
  deriving DecidableEq, Repr

/-- The dict built for one done job in
`ProxyDownloadManager._persist_completed`. -/
def proxyPersistRecord (info : DlInfo) (sourceUrl : String)
    (filePath : Option String) : ProxyRecord :=
  { id := info.id
    url := info.url
    source_url := sourceUrl
    original_url := info.originalUrl
    title := info.title
    filename := info.filename
    folder := info.folder
    size := info.size
    status := info.status
    msg := info.msg
    timestamp := info.timestamp
    file_path := filePath
    quality := info.quality
    fmt := info.fmt
    customNamePfx := info.customNamePfx }

/-- `ProxyDownloadManager._load_completed` on one record: rebuild the
`DownloadInfo` through its constructor (no `error` key is persisted, so
the constructor receives `None`), then overwrite the mutable fields;
`percent` is unconditionally set to `100.0` and `speed`/`eta` cleared. -/
def proxyLoadRecord (record : ProxyRecord) : DlInfo :=
  let originalUrl :=
    if record.original_url = "" then record.source_url
    else record.original_url
  let info := mkDownloadInfo record.id record.title record.url
    record.quality record.fmt record.folder record.customNamePfx
    none (some originalUrl) 0
  { info with
      filename := record.filename
      size := record.size
      status := record.status
      msg := record.msg
      percent := some 100
      speed := none
      eta := none
      timestamp := record.timestamp }

/-- A finished proxy download whose creator used a non-empty custom name
prefix. -/
def infoPfxSample : DlInfo :=
  { mkDownloadInfo "x" "t" "proxy:x" "proxy" "proxy" "" "a" none
      (some "http://src") 7 with
    status := "finished", percent := some 100,
    filename := some "f.bin", size := some 5 }

/-- C7 (counterexample): persisting and reloading a done record with
`custom_name_prefix = "a"` does not reproduce it: the constructor
re-applies the prefix, so the id (and title) come back double-prefixed
(`a.a.x` instead of `a.x`). -/
theorem c7_counterexample_roundtrip :
    (proxyLoadRecord (proxyPersistRecord infoPfxSample "http://src"
      (some "/d/f.bin"))).id ≠ infoPfxSample.id := by
  decide

/-- C7 (amended): for proxy done records whose `custom_name_prefix` is
empty and whose in-memory progress is the terminal `100.0` (as every
record inserted by the finish path has) and whose `original_url` is
non-empty, persist-then-reload reproduces the record: id, url, title,
filename, size, status, message, timestamp, progress and original URL all
agree.  With a non-empty prefix the id and title are re-prefixed on every
load. -/
theorem c7_roundtrip (info : DlInfo) (src : String) (fp : Option String)
    (hpfx : info.customNamePfx = "") (hpct : info.percent = some 100)
    (hou : info.originalUrl ≠ "") :
    (proxyLoadRecord (proxyPersistRecord info src fp)).id = info.id ∧
    (proxyLoadRecord (proxyPersistRecord info src fp)).title = info.title ∧
    (proxyLoadRecord (proxyPersistRecord info src fp)).url = info.url ∧
    (proxyLoadRecord (proxyPersistRecord info src fp)).filename =
      info.filename ∧
    (proxyLoadRecord (proxyPersistRecord info src fp)).size = info.size ∧
    (proxyLoadRecord (proxyPersistRecord info src fp)).status = info.status ∧
    (proxyLoadRecord (proxyPersistRecord info src fp)).msg = info.msg ∧
    (proxyLoadRecord (proxyPersistRecord info src fp)).timestamp =
      info.timestamp ∧
    (proxyLoadRecord (proxyPersistRecord info src fp)).percent =
      info.percent ∧
    (proxyLoadRecord (proxyPersistRecord info src fp)).originalUrl =
      info.originalUrl := by
  simp [proxyLoadRecord, proxyPersistRecord, mkDownloadInfo, hpfx, hpct, hou]

theorem c7_roundtrip_witness :
    (proxyLoadRecord (proxyPersistRecord
      { mkDownloadInfo "x" "t" "proxy:x" "proxy" "proxy" "" "" none
          (some "http://src") 7 with
        status := "finished", percent := some 100,
        filename := some "f.bin", size := some 5 }
      "http://src" (some "/d/f.bin"))).id =
      ({ mkDownloadInfo "x" "t" "proxy:x" "proxy" "proxy" "" "" none
          (some "http://src") 7 with
        status := "finished", percent := some 100,
        filename := some "f.bin", size := some 5 } : DlInfo).id :=
  (c7_roundtrip _ "http://src" (some "/d/f.bin") (by decide) (by decide)
    (by decide)).1

/-! ## C8 — cancel before admission (ytdl)

`DownloadQueue.cancel` on a record whose worker has not started
(`started()` false) deletes it from the active queue and notifies
`canceled`, but never sets `Download.canceled`; the execution task created
at add time (waiting behind the semaphore / sequential lock) later checks
exactly that flag in `_run_download` and, finding it unset, calls
`download.start`, spawning the worker. -/

structure CancelState where
  /-- the key is in `self.pending`. -/
  pendingHas : Bool
  /-- the key is in `self.queue`. -/
  queueHas : Bool
  /-- `Download.started()`: the worker process object exists. -/
  started : Bool
  /-- `Download.canceled`, the cooperative flag. -/
  canceledFlag : Bool
  /-- number of `download.start(...)` invocations (worker spawns). -/
  execCount : Nat
  notifiedCanceled : Bool
  deriving DecidableEq, Repr

/-- The state right after `add(url, auto_start=True)`: the record is in
the active queue and `__start_download` has been scheduled but not yet
admitted. -/
def afterAutoStartAdd : CancelState :=
  { pendingHas := false, queueHas := true, started := false,
    canceledFlag := false, execCount := 0, notifiedCanceled := false }

/-- `DownloadQueue.cancel([key])` for one key. -/
def ytdlCancelStep (s : CancelState) : CancelState :=
  if s.pendingHas then
    { s with pendingHas := false, notifiedCanceled := true }
  else if s.queueHas then
    if s.started then { s with canceledFlag := true }
    else { s with queueHas := false, notifiedCanceled := true }
  else s

/-- `DownloadQueue._run_download`, executed once the concurrency
controller admits the task: skip when the cooperative flag is set,
otherwise spawn the worker (`download.start`).  The subsequent
`_post_download_cleanup` is a no-op here because the record has already
left the queue. -/
def ytdlRunDownloadTask (s : CancelState) : CancelState :=
  if s.canceledFlag then s
  else { s with started := true, execCount := s.execCount + 1 }

/-- C8 (code bug): cancel a queued-but-not-started download, then let the
concurrency controller admit its pending task.  The record is removed and
`canceled` is notified as the claim says, but `cancel` never set
`Download.canceled` (only the `started()` branch does), so `_run_download`
finds the flag unset and spawns the worker: the executor call count is 1,
not 0.  The dead guards `if download.canceled: ... skipping start` in
`__start_download`/`_run_download` show the intended behavior. -/
theorem c8_cancel_before_admission_spawns_worker :
    ytdlRunDownloadTask (ytdlCancelStep afterAutoStartAdd) =
      { pendingHas := false, queueHas := false, started := true,
        canceledFlag := false, execCount := 1, notifiedCanceled := true } := by
  decide

/-! ## C10 — fresh output paths

`_ensure_unique_path` (proxy and Seedr) and the archive-name loop of
`GalleryDlManager._archive_results` probe `name`, `name_1`, `name_2`, …
(resp. `title-id.zip`, `title-id-1.zip`, …) until a name not present in
the target directory is found.  The unbounded `while` is embedded with
explicit fuel; every returned name is proven fresh. -/

/-- Remove NUL characters (`candidate.replace("\0", "")`). -/
def stripNulls (s : String) : String :=
  String.mk (s.data.filter (fun c => c ≠ Char.ofNat 0))

/-- Python `str.strip()`: drop leading and trailing whitespace. -/
def trimChars (cs : List Char) : List Char :=
  ((cs.dropWhile Char.isWhitespace).reverse.dropWhile Char.isWhitespace).reverse

/-- Python `str.split(sep)` for a one-character separator. -/
def splitOnChar (c : Char) : List Char → List (List Char)
  | [] => [[]]
  | x :: xs =>
    let r := splitOnChar c xs
    if x = c then [] :: r
    else
      match r with
      | h :: t => (x :: h) :: t
      | [] => [[x]]

/-- Python `str.replace("..", "_")`: non-overlapping, left to right. -/
def replaceDotDot : List Char → List Char
  | '.' :: '.' :: rest => '_' :: replaceDotDot rest
  | c :: rest => c :: replaceDotDot rest
  | [] => []

/-- Last index of a character, if present. -/
def rlastIdx (c : Char) : List Char → Option Nat
  | [] => none
  | x :: xs =>
    match rlastIdx c xs with
    | some i => some (i + 1)
    | none => if x = c then some 0 else none

/-- `os.path.splitext` on a basename: split at the last dot unless every
character before it is itself a dot. -/
def splitext (filename : String) : String × String :=
  match rlastIdx (Char.ofNat 46) filename.data with
  | none => (filename, "")
  | some di =>
    if (filename.data.take di).any (fun ch => ch ≠ Char.ofNat 46) then
      (String.mk (filename.data.take di), String.mk (filename.data.drop di))
    else (filename, "")

/-- The `while os.path.exists(...)` probing loop, parameterized by the
candidate formula; `existing` is the set of names already present in the
target directory, and the fuel bounds the unbounded source loop. -/
def freshNameLoop (existing : List String) (next : Nat → String) :
    Nat → String → Nat → Option String
  | _, _, 0 => none
  | counter, candidate, fuel + 1 =>
    if candidate ∈ existing then
      freshNameLoop existing next (counter + 1) (next counter) fuel
    else some candidate

/-- `_ensure_unique_path` (identical in `proxy_downloads.py` and
`seedr_manager.py`): `filename`, then `{name}_{counter}{ext}`. -/
def ensureUniquePath (existing : List String) (filename : String)
    (fuel : Nat) : Option String :=
  let ne := splitext filename
  freshNameLoop existing
    (fun counter => ne.1 ++ "_" ++ toString counter ++ ne.2) 1 filename fuel

/-- One character of gallery-dl's `invalid = '\\/:*?"<>|'` set. -/
def gdlInvalidChar (c : Char) : Bool :=
  c = '\\' ∨ c = '/' ∨ c = ':' ∨ c = '*' ∨ c = '?' ∨ c = Char.ofNat 34 ∨
    c = '<' ∨ c = '>' ∨ c = '|'

/-- gallery-dl `_sanitize_filename`: strip NULs and whitespace, replace
the invalid characters and `..` with underscores, fall back when empty. -/
def gdlSanitizeFilename (value fallback : String) : String :=
  let cs := trimChars (value.data.filter (fun c => c ≠ Char.ofNat 0))
  let cs := cs.map (fun c => if gdlInvalidChar c then '_' else c)
  let s := String.mk (replaceDotDot cs)
  if s = "" then fallback else s

/-- The archive-name loop of `GalleryDlManager._archive_results`:
`{title}-{id}.zip`, then `{title}-{id}-{counter}.zip` (an empty title
falls back to `gallery`; `fallback` stands for the uuid fallback of the
sanitizer). -/
def gdlArchivePath (existing : List String) (title0 id fallback : String)
    (fuel : Nat) : Option String :=
  let title := if title0 = "" then "gallery" else title0
  freshNameLoop existing
    (fun counter =>
      gdlSanitizeFilename (title ++ "-" ++ id ++ "-" ++ toString counter)
        fallback ++ ".zip")
    1 (gdlSanitizeFilename (title ++ "-" ++ id) fallback ++ ".zip") fuel

theorem freshNameLoop_not_mem {existing : List String} {next : Nat → String}
    {counter : Nat} {candidate : String} {fuel : Nat} {c : String}
    (h : freshNameLoop existing next counter candidate fuel = some c) :
    c ∉ existing := by
  induction fuel generalizing counter candidate with
  | zero => simp [freshNameLoop] at h
  | succ n ih =>
    unfold freshNameLoop at h
    by_cases hm : candidate ∈ existing
    · simp only [hm, if_true] at h
      exact ih h
    · simp only [hm, if_false] at h
      rw [← Option.some.inj h]
      exact hm

theorem freshNameLoop_first {existing : List String} {next : Nat → String}
    {counter : Nat} {candidate : String} {fuel : Nat}
    (hm : candidate ∉ existing) (hf : 0 < fuel) :
    freshNameLoop existing next counter candidate fuel = some candidate := by
  match fuel, hf with
  | n + 1, _ => simp [freshNameLoop, hm]

/-- C10: whenever the probing loop of `_ensure_unique_path` (proxy /
Seedr) or of the gallery-dl archiver returns a name, that name is not
present in the target directory — the chosen output path never overwrites
an existing file — and a filename that is already free is used as-is. -/
theorem c10_fresh_output_path (existing : List String) (filename : String)
    (fuel fuel2 : Nat) (c c2 : String) (title0 id fallback : String)
    (h1 : ensureUniquePath existing filename fuel = some c)
    (h2 : gdlArchivePath existing title0 id fallback fuel2 = some c2) :
    c ∉ existing ∧ c2 ∉ existing ∧
    (filename ∉ existing → 0 < fuel →
      ensureUniquePath existing filename fuel = some filename) := by
  refine ⟨freshNameLoop_not_mem h1, freshNameLoop_not_mem h2, ?_⟩
  intro hfree hf
  unfold ensureUniquePath
  exact freshNameLoop_first hfree hf

theorem c10_fresh_output_path_witness :
    ensureUniquePath ["a.txt", "a_1.txt", "g-1.zip"] "a.txt" 3 =
      some "a_2.txt" ∧
    ("a_2.txt" : String) ∉ ["a.txt", "a_1.txt", "g-1.zip"] ∧
    gdlArchivePath ["a.txt", "a_1.txt", "g-1.zip"] "g" "1" "fb" 3 =
      some "g-1-1.zip" ∧
    ("g-1-1.zip" : String) ∉ ["a.txt", "a_1.txt", "g-1.zip"] :=
  have h := c10_fresh_output_path ["a.txt", "a_1.txt", "g-1.zip"] "a.txt" 3 3
    "a_2.txt" "g-1-1.zip" "g" "1" "fb" (by decide) (by decide)
  ⟨by decide, h.1, by decide, h.2.1⟩

/-! ## C9 — rename

`DownloadQueue.rename` (ytdl) rejects empty names, path separators and
`.`/`..` before touching anything; the proxy (and Seedr) `rename` instead
pipes the requested name through `_sanitize_filename`, which keeps only
the last path component and substitutes a generated fallback for an empty
name — it rejects only missing records, missing originals and collisions.
The file system is an association list from paths to sizes; `os.rename`
moves an entry. -/

/-- Association-list lookup (`dict.get`). -/
def adLookup {V : Type} : List (String × V) → String → Option V
  | [], _ => none
  | (k', v') :: rest, k => if k' = k then some v' else adLookup rest k

/-- Association-list key removal. -/
def adEraseKey {V : Type} : List (String × V) → String → List (String × V)
  | [], _ => []
  | (k', v') :: rest, k => if k' = k then rest else (k', v') :: adEraseKey rest k

/-- `_sanitize_filename` of `proxy_downloads.py` / `seedr_manager.py`:
drop NULs, strip, turn backslashes into slashes, keep the last slash
component, fall back to a generated name when empty. -/
def sanitizeFilename (candidate fallback : String) : String :=
  let cs := trimChars (candidate.data.filter (fun c => c ≠ Char.ofNat 0))
  let cs := cs.map (fun c => if c = '\\' then '/' else c)
  let name := String.mk ((splitOnChar '/' cs).getLastD [])
  if name = "" then fallback else name

/-- Glue lists of characters with a separator (`sep.join`). -/
def joinChars (sep : Char) : List (List Char) → List Char
  | [] => []
  | [p] => p
  | p :: rest => p ++ sep :: joinChars sep rest

/-- `os.path.dirname` for the slash-separated paths the managers build
via `os.path.join` (no trailing slashes). -/
def dirname (p : String) : String :=
  match splitOnChar '/' p.data with
  | [] => ""
  | [_] => ""
  | parts => String.mk (joinChars '/' parts.dropLast)

/-- `os.path.join(directory, name)` for a relative `name` (the sanitized
names never start with a slash). -/
def joinPath (dir name : String) : String :=
  if dir = "" then name
  else if dir.data.getLast? = some '/' then dir ++ name
  else dir ++ "/" ++ name

/-- `os.rename`: move the file entry, keeping its size. -/
def fsRename (fs : List (String × Int)) (src dst : String) :
    List (String × Int) :=
  match adLookup fs src with
  | some sz => adPut (adEraseKey fs src) dst sz
  | none => fs

structure RenameResult where
  status : String
  msg : Option String
  filename : Option String
  title : Option String
  deriving DecidableEq, Repr

/-- The fields of a proxy done job consulted by `rename`. -/
structure PRenameJob where
  filePath : Option String
  filename : Option String
  size : Option Int
  deriving DecidableEq, Repr

/-- The fields of a ytdl done record consulted by `rename`. -/
structure YRenameJob where
  filename : String
  title : String
  size : Option Int
  deriving DecidableEq, Repr

/-- `ProxyDownloadManager.rename` (also `SeedrDownloadManager.rename`,
line for line). -/
def proxyRename (done : List (String × PRenameJob)) (fs : List (String × Int))
    (downloadId newName fallback : String) :
    RenameResult × List (String × PRenameJob) × List (String × Int) :=
  match adLookup done downloadId with
  | none => (⟨"error", some "Download not found.", none, none⟩, done, fs)
  | some job =>
    match job.filePath with
    | none =>
        (⟨"error", some "Original file no longer exists.", none, none⟩,
          done, fs)
    | some fp =>
      if fp ∈ fs.map Prod.fst then
        let sanitized := sanitizeFilename newName fallback
        let targetPath := joinPath (dirname fp) sanitized
        if targetPath ∈ fs.map Prod.fst then
          (⟨"error", some "A file with the requested name already exists.",
            none, none⟩, done, fs)
        else
          let fs2 := fsRename fs fp targetPath
          let job2 : PRenameJob :=
            { filePath := some targetPath, filename := some sanitized,
              size :=
                match adLookup fs2 targetPath with
                | some sz => some sz
                | none => job.size }
          (⟨"ok", none, some sanitized, some sanitized⟩,
            adPut done downloadId job2, fs2)
      else
        (⟨"error", some "Original file no longer exists.", none, none⟩,
          done, fs)

/-- `DownloadQueue.rename`; `directory` is the directory resolved by
`__calc_download_path` (its own error returns precede everything the
claim mentions and leave the state untouched as well). -/
def ytdlRename (done : List (String × YRenameJob)) (fs : List (String × Int))
    (directory : String) (id newName : String) :
    RenameResult × List (String × YRenameJob) × List (String × Int) :=
  if newName = "" ∨ String.mk (trimChars newName.data) = "" then
    (⟨"error", some "New filename cannot be empty.", none, none⟩, done, fs)
  else if '/' ∈ newName.data ∨ '\\' ∈ newName.data then
    (⟨"error", some "Filename cannot contain path separators.", none, none⟩,
      done, fs)
  else if newName = "." ∨ newName = ".." then
    (⟨"error", some "Invalid filename specified.", none, none⟩, done, fs)
  else
    match adLookup done id with
    | none => (⟨"error", some "Download not found.", none, none⟩, done, fs)
    | some dl =>
      let originalPath := joinPath directory dl.filename
      if originalPath ∈ fs.map Prod.fst then
        let targetPath := joinPath directory newName
        if targetPath ∈ fs.map Prod.fst then
          (⟨"error", some "A file with the requested name already exists.",
            none, none⟩, done, fs)
        else
          let fs2 := fsRename fs originalPath targetPath
          let dl2 : YRenameJob :=
            { filename := newName, title := newName,
              size :=
                match adLookup fs2 targetPath with
                | some sz => some sz
                | none => dl.size }
          (⟨"ok", none, some newName, some newName⟩, adPut done id dl2, fs2)
      else
        (⟨"error", some "Original file no longer exists.", none, none⟩,
          done, fs)

/-- C9 (counterexample): the proxy `rename` does not reject a name with a
path separator: `a/b` is sanitized to its last component `b` and the
rename succeeds with `{status: ok}`. -/
theorem c9_counterexample_proxy_separator_accepted :
    proxyRename
      [("k", { filePath := some "d/orig.bin", filename := some "orig.bin",
               size := some 5 })]
      [("d/orig.bin", 5)] "k" "a/b" "fb" =
    ({ status := "ok", msg := none, filename := some "b", title := some "b" },
     [("k", { filePath := some "d/b", filename := some "b", size := some 5 })],
     [("d/b", 5)]) := by
  decide

/-- C9 (amended): the ytdl `rename` rejects empty names, names with path
separators, `.`/`..`, unknown ids, missing originals and collisions, each
time leaving the record and the file system untouched, and on success
renames on disk and answers `{status: ok, filename, title}` with the new
name.  The proxy `rename` rejects collisions (state untouched) but does
not reject empty or separator-containing names: it renames to the
sanitized last component (or a generated fallback name) and answers ok
with that sanitized name. -/
theorem c9_rename_validation
    (done : List (String × YRenameJob)) (fs : List (String × Int))
    (directory id newName : String)
    (pdone : List (String × PRenameJob)) (pid pname fallback : String)
    (job : PRenameJob) (fp : String) :
    (String.mk (trimChars newName.data) = "" →
      ytdlRename done fs directory id newName =
        (⟨"error", some "New filename cannot be empty.", none, none⟩,
          done, fs)) ∧
    (¬ (newName = "" ∨ String.mk (trimChars newName.data) = "") →
      '/' ∈ newName.data ∨ '\\' ∈ newName.data →
      ytdlRename done fs directory id newName =
        (⟨"error", some "Filename cannot contain path separators.",
          none, none⟩, done, fs)) ∧
    (∀ dl : YRenameJob,
      ¬ (newName = "" ∨ String.mk (trimChars newName.data) = "") →
      ¬ ('/' ∈ newName.data ∨ '\\' ∈ newName.data) →
      ¬ (newName = "." ∨ newName = "..") →
      adLookup done id = some dl →
      joinPath directory dl.filename ∈ fs.map Prod.fst →
      (joinPath directory newName ∈ fs.map Prod.fst →
        ytdlRename done fs directory id newName =
          (⟨"error", some "A file with the requested name already exists.",
            none, none⟩, done, fs)) ∧
      (joinPath directory newName ∉ fs.map Prod.fst →
        (ytdlRename done fs directory id newName).1.status = "ok" ∧
        (ytdlRename done fs directory id newName).1.filename = some newName ∧
        (ytdlRename done fs directory id newName).1.title = some newName ∧
        (ytdlRename done fs directory id newName).2.2 =
          fsRename fs (joinPath directory dl.filename)
            (joinPath directory newName))) ∧
    (adLookup pdone pid = some job → job.filePath = some fp →
      fp ∈ fs.map Prod.fst →
      (joinPath (dirname fp) (sanitizeFilename pname fallback) ∈
          fs.map Prod.fst →
        proxyRename pdone fs pid pname fallback =
          (⟨"error", some "A file with the requested name already exists.",
            none, none⟩, pdone, fs)) ∧
      (joinPath (dirname fp) (sanitizeFilename pname fallback) ∉
          fs.map Prod.fst →
        (proxyRename pdone fs pid pname fallback).1.status = "ok" ∧
        (proxyRename pdone fs pid pname fallback).1.filename =
          some (sanitizeFilename pname fallback))) := by
  refine ⟨?_, ?_, ?_, ?_⟩
  · intro htrim
    simp [ytdlRename, htrim]
  · intro hne hsep
    simp [ytdlRename, hne, hsep]
  · intro dl hne hsep hdot hlook horig
    constructor
    · intro hcoll
      simp [ytdlRename, hne, hsep, hdot, hlook, horig, hcoll]
    · intro hfree
      simp [ytdlRename, hne, hsep, hdot, hlook, horig, hfree]
  · intro hlook hfp horig
    constructor
    · intro hcoll
      simp [proxyRename, hlook, hfp, horig, hcoll]
    · intro hfree
      simp [proxyRename, hlook, hfp, horig, hfree]

theorem c9_rename_validation_witness :
    ytdlRename [("k", { filename := "o.bin", title := "o", size := some 5 })]
        [("d/o.bin", 5), ("d/t.bin", 7)] "d" "k" "t.bin" =
      (⟨"error", some "A file with the requested name already exists.",
        none, none⟩,
       [("k", { filename := "o.bin", title := "o", size := some 5 })],
       [("d/o.bin", 5), ("d/t.bin", 7)]) ∧
    (ytdlRename [("k", { filename := "o.bin", title := "o", size := some 5 })]
        [("d/o.bin", 5)] "d" "k" "n.bin").1.status = "ok" ∧
    (proxyRename
        [("k", { filePath := some "d/o.bin", filename := some "o.bin",
                 size := some 5 })]
        [("d/o.bin", 5)] "k" "" "fallback-name").1.filename =
      some "fallback-name" :=
  have h1 := c9_rename_validation
    [("k", { filename := "o.bin", title := "o", size := some 5 })]
    [("d/o.bin", 5), ("d/t.bin", 7)] "d" "k" "t.bin" [] "" "" ""
    { filePath := none, filename := none, size := none } ""
  have h2 := c9_rename_validation
    [("k", { filename := "o.bin", title := "o", size := some 5 })]
    [("d/o.bin", 5)] "d" "k" "n.bin" [] "" "" ""
    { filePath := none, filename := none, size := none } ""
  have h3 := c9_rename_validation [] [("d/o.bin", 5)] "" "" ""
    [("k", { filePath := some "d/o.bin", filename := some "o.bin",
             size := some 5 })]
    "k" "" "fallback-name"
    { filePath := some "d/o.bin", filename := some "o.bin", size := some 5 }
    "d/o.bin"
  ⟨(h1.2.2.1 { filename := "o.bin", title := "o", size := some 5 }
      (by decide) (by decide) (by decide) (by decide) (by decide)).1
      (by decide),
   ((h2.2.2.1 { filename := "o.bin", title := "o", size := some 5 }
      (by decide) (by decide) (by decide) (by decide) (by decide)).2
      (by decide)).1,
   ((h3.2.2.2 (by decide) (by decide) (by decide)).2 (by decide)).2⟩

end MeTube
